import Mathlib

/-!
Shallow embedding of the awt-ci CI triage tool (TypeScript sources under src/),
covering the log-curation engine (src/report.ts), the XML-attribute escaper,
the comment reconciler (src/comments.ts), the gather-ci pending gate
(src/gather-ci.ts), the failure-bundle byte cap (src/ci.ts) and the branch
resolution core (src/resolve.ts).

JavaScript strings are modelled as Lean `String` (a list of characters in this
toolchain); `s.length` is modelled as the character count `strLen`.  All
definitions are executable and structurally recursive so concrete inputs can be
evaluated by the kernel.
-/

/-! ## JavaScript string primitives -/

/-- Character count of a string; models the JS `length` property. -/
def strLen (s : String) : Nat := s.data.length

/-- Models the JS test `c === ' ' || c === '\t'` used by the failure-signal
regular expressions (their boundary class is exactly space or tab). -/
def isSpaceTab (c : Char) : Bool := c == ' ' || c == '\t'

/-- Models `text.split(/\r?\n/)` on the character list: a separator is either
the two-character sequence CR LF or a bare LF; a lone CR is ordinary text. -/
def splitRN : List Char → List (List Char)
  | [] => [[]]
  | '\r' :: '\n' :: rest => [] :: splitRN rest
  | '\n' :: rest => [] :: splitRN rest
  | c :: rest => (splitRN rest).modifyHead (c :: ·)

/-- String-level wrapper for `splitRN`. -/
def splitLines (s : String) : List String := (splitRN s.data).map String.mk

/-- Models `Array.prototype.join(sep)` on character lists. -/
def joinSep (sep : List Char) : List (List Char) → List Char
  | [] => []
  | [l] => l
  | l :: l2 :: ls => l ++ sep ++ joinSep sep (l2 :: ls)

/-- Models `lines.join("\n")`. -/
def joinLines (ls : List String) : String := ⟨joinSep ['\n'] (ls.map String.data)⟩

/-- Models `s.replace(/c/g, rep)` for a single-character pattern `c`:
every occurrence of the character is replaced by `rep`. -/
def replaceChar (target : Char) (rep : List Char) : List Char → List Char
  | [] => []
  | c :: rest => (if c = target then rep else [c]) ++ replaceChar target rep rest

/-- String-level wrapper for `replaceChar`. -/
def jsReplaceAllChar (s : String) (target : Char) (rep : String) : String :=
  ⟨replaceChar target rep.data s.data⟩

/-- Right-boundary test of the token match starting at the head of `l`: after
dropping the token, the rest must be empty or start with space or tab. -/
def tailBoundaryST (tok l : List Char) : Bool :=
  match l.drop tok.length with
  | [] => true
  | d :: _ => isSpaceTab d

/-- Scanner for a token bounded by space, tab or the line edges.  The flag
records whether the previous character (or the line start) is a valid left
boundary.  Models the regex test `/(^|[ \t])TOK([ \t]|$)/.test(line)`. -/
def scanTokST (tok : List Char) : Bool → List Char → Bool
  | _, [] => false
  | prevOk, c :: rest =>
    (prevOk && tok.isPrefixOf (c :: rest) && tailBoundaryST tok (c :: rest)) ||
    scanTokST tok (isSpaceTab c) rest

/-- Models `/(^|[ \t])TOK([ \t]|$)/.test(line)` for a literal token. -/
def hasTokenST (tok : String) (line : String) : Bool :=
  scanTokST tok.data true line.data

/-- Word-character class of the regex `\w` (ASCII letters, digits, underscore). -/
def isWordChar (c : Char) : Bool :=
  ('a' ≤ c && c ≤ 'z') || ('A' ≤ c && c ≤ 'Z') || ('0' ≤ c && c ≤ '9') || c == '_'

/-- Scanner for `\bTOK\b` where every character of `TOK` is a word character:
the flag records whether the previous character is a word character (so the
position is a word boundary exactly when the flag is false). -/
def scanTokWord (tok : List Char) : Bool → List Char → Bool
  | _, [] => false
  | prevWord, c :: rest =>
    (!prevWord && tok.isPrefixOf (c :: rest) &&
      (match (c :: rest).drop tok.length with
       | [] => true
       | d :: _ => !isWordChar d)) ||
    scanTokWord tok (isWordChar c) rest

/-- Models `/\bTOK\b/.test(line)` for a literal all-word-character token. -/
def hasTokenWord (tok : String) (line : String) : Bool :=
  scanTokWord tok.data false line.data

/-- Models `text.indexOf(pat)`: the first index at which `pat` occurs as a
contiguous substring, or none. -/
def idxOfList (pat : List Char) : List Char → Option Nat
  | [] => if pat.isEmpty then some 0 else none
  | c :: rest =>
    if pat.isPrefixOf (c :: rest) then some 0
    else (idxOfList pat rest).map (· + 1)

/-- Decimal digit character for a value below ten. -/
def digitChar (n : Nat) : Char := Char.ofNat (48 + n)

/-- Fuel-driven little-endian decimal digit list of `n` (fuel bounds the digit
count; structural recursion keeps it kernel-evaluable). -/
def digitsRev (fuel n : Nat) : List Char :=
  match fuel with
  | 0 => []
  | f + 1 => if n < 10 then [digitChar n] else digitChar (n % 10) :: digitsRev f (n / 10)

/-- Decimal rendering of a natural number; models the JS template `${n}` for a
non-negative integer. -/
def decimalChars (n : Nat) : List Char := (digitsRev (n + 1) n).reverse

/-- String-level decimal rendering, models `String(n)`. -/
def natToStr (n : Nat) : String := ⟨decimalChars n⟩

/-- Models the JS string-or-default idiom `s || alt` (the empty string is
falsy). -/
def jsOrStr (s alt : String) : String := if s = "" then alt else s

/-- Models `o || alt` where `o` is a possibly absent string. -/
def jsOrOptStr (o : Option String) (alt : String) : String :=
  match o with
  | some s => jsOrStr s alt
  | none => alt

/-! ## Log curation engine (src/report.ts) -/

def MAX_LINE_CHARS : Nat := 600
def MAX_JOB_EXCERPT_CHARS : Nat := 12000
def TRIM_SKIPPED_THRESHOLD : Nat := 15000

/-- Token of `RE_ERROR`. -/
def tokERROR : String := "ERROR"
/-- Token of `RE_FAILED`. -/
def tokFAILED : String := "FAILED"
/-- Token of `RE_XFAIL`. -/
def tokXFAIL : String := "XFAIL"

def SHORT_SUMMARY_HEADER : String :=
  "=========================== short test summary info ============================"

/-- Counts of the `error`, `failed`, `xfail`, `lines` and `chars` fields of the
`ExtractCounts` interface (src/types.ts). -/
structure ExtractCounts where
  error : Nat
  failed : Nat
  xfail : Nat
  lines : Nat
  chars : Nat
deriving DecidableEq, Repr

/-- Models `truncateLine` of src/report.ts. -/
def truncateLine (s : String) : String :=
  if strLen s ≤ MAX_LINE_CHARS then s
  else ⟨(s.data.take MAX_LINE_CHARS) ++ (" … [trimmed]" : String).data⟩

/-- Models `truncateMiddle` of src/report.ts: `s.slice(0, half)` keeps the
head, `s.slice(-half)` keeps the tail, and the marker renders the number of
characters by which the input exceeds `max`. -/
def truncateMiddle (s : String) (max : Nat) : String :=
  if strLen s ≤ max then s
  else
    let half := Nat.max 1 ((max - 32) / 2)
    let head := s.data.take half
    let tail := s.data.drop (strLen s - half)
    ⟨head ++ ("\n… [truncated " : String).data ++ decimalChars (strLen s - max) ++
      (" chars] …\n" : String).data ++ tail⟩

/-- Per-line indicator triple of `countInteresting` in src/report.ts. -/
structure LineCounts where
  err : Nat
  fail : Nat
  xfail : Nat
deriving DecidableEq, Repr

/-- Models `countInteresting` of src/report.ts (at most one per category and
line, regardless of how many occurrences the line has). -/
def countInteresting (line : String) : LineCounts :=
  { err := if hasTokenST tokERROR line then 1 else 0
    fail := if hasTokenST tokFAILED line then 1 else 0
    xfail := if hasTokenST tokXFAIL line then 1 else 0 }

/-- Models `isInterestingLine` of src/report.ts. -/
def isInterestingLine (line : String) : Bool :=
  hasTokenST tokERROR line || hasTokenST tokFAILED line || hasTokenST tokXFAIL line

/-- Models `extractShortSummaryBlock` of src/report.ts: the text from the first
occurrence of the summary header to the end, if the header occurs. -/
def extractShortSummaryBlock (text : String) : Option String :=
  (idxOfList SHORT_SUMMARY_HEADER.data text.data).map (fun i => ⟨text.data.drop i⟩)

/-- Retained failure-signal lines of the curation loop: interesting lines, each
line-truncated, in input order. -/
def keptSignalLines (raw : String) : List String :=
  ((splitLines raw).filter isInterestingLine).map truncateLine

/-- Summary-block lines appended after the signal lines: a spacer, the header
reprint and the per-line-truncated block body (header line dropped). -/
def summaryTailLines (raw : String) : List String :=
  match extractShortSummaryBlock raw with
  | none => []
  | some blk =>
    "" :: SHORT_SUMMARY_HEADER :: ((splitLines blk).drop 1).map truncateLine

/-- Excerpt after joining kept lines, before the SKIPPED-dropping step. -/
def preSkipExcerpt (raw : String) : String :=
  joinLines (keptSignalLines raw ++ summaryTailLines raw)

/-- Excerpt after the conditional SKIPPED-dropping step of src/report.ts. -/
def postSkipExcerpt (raw : String) : String :=
  let excerpt := preSkipExcerpt raw
  if TRIM_SKIPPED_THRESHOLD < strLen excerpt then
    let noSkipped := joinLines
      ((splitLines excerpt).filter (fun ln => !hasTokenWord "SKIPPED" ln))
    if 0 < strLen noSkipped then noSkipped else excerpt
  else excerpt

/-- Final excerpt after middle-truncation. -/
def finalExcerpt (raw : String) : String :=
  truncateMiddle (postSkipExcerpt raw) MAX_JOB_EXCERPT_CHARS

/-- Accumulated per-category counts over the retained signal lines, exactly as
the curation loop accumulates them (before summary attachment and before any
whole-excerpt truncation). -/
def signalCounts (raw : String) : LineCounts :=
  (keptSignalLines raw).foldl
    (fun acc t =>
      let c := countInteresting t
      ⟨acc.err + c.err, acc.fail + c.fail, acc.xfail + c.xfail⟩)
    ⟨0, 0, 0⟩

/-- Result record of `curateJobExcerpt`. -/
structure CurateOut where
  excerpt : String
  counts : ExtractCounts
deriving DecidableEq, Repr

/-- Models `curateJobExcerpt` of src/report.ts end to end. -/
def curateJobExcerpt (raw : String) : CurateOut :=
  let excerpt := finalExcerpt raw
  let sc := signalCounts raw
  { excerpt := excerpt
    counts :=
      { error := sc.err
        failed := sc.fail
        xfail := sc.xfail
        lines := if strLen excerpt ≠ 0 then (splitLines excerpt).length else 0
        chars := strLen excerpt } }

/-! ## XML attribute escaper (src/report.ts, line 286) -/

/-- Models `escapeXmlAttr` exactly as written in src/report.ts: the four
replacements substitute the matched character by that same character (the
replacement strings in the source are the bare characters, not entity names),
and the apostrophe is not handled at all. -/
def escapeXmlAttr (s : String) : String :=
  jsReplaceAllChar
    (jsReplaceAllChar (jsReplaceAllChar (jsReplaceAllChar s '&' "&") '"' "\"") '<' "<")
    '>' ">"

/-- Input of the repository test `runEscapeTest` (src/report.test.ts). -/
def escapeTestInput : String := "Build \"alpha\" & beta's <gamma>"

/-- Output asserted by `runEscapeTest`. -/
def escapeTestExpected : String :=
  "Build &quot;alpha&quot; &amp; beta&apos;s &lt;gamma&gt;"

/-! ## Claim C1: XML attribute escaping -/

/-- C1: the escaper does not produce the five named entities.  On the input of
the repository test `runEscapeTest`, `escapeXmlAttr` returns the input
unchanged (its replacement strings are the matched characters themselves and
the apostrophe is never replaced), so the asserted entity-escaped output is not
produced.  This contradicts the test assertion and the plan document in the
source dump, which both require entity escaping: the code, not the claim, is
wrong. -/
theorem escapeXmlAttr_failing :
    escapeXmlAttr escapeTestInput = escapeTestInput ∧
    escapeXmlAttr escapeTestInput ≠ escapeTestExpected := by
  constructor
  · decide
  · decide

/-! ## Claim C9: curation determinism -/

/-- C9: log curation is a pure, deterministic function of its input text: the
embedded `curateJobExcerpt` consults no ambient state, so two calls on the same
raw text return the same excerpt and the same counts. -/
theorem curateJobExcerpt_deterministic (raw₁ raw₂ : String) (h : raw₁ = raw₂) :
    curateJobExcerpt raw₁ = curateJobExcerpt raw₂ := by rw [h]

/-- Witness for C9 at a concrete input. -/
theorem curateJobExcerpt_deterministic_witness :
    curateJobExcerpt "FAILED test_a" = curateJobExcerpt "FAILED test_a" :=
  curateJobExcerpt_deterministic "FAILED test_a" "FAILED test_a" rfl

/-! ## Claim C2: which counts are recomputed post-truncation -/

/-- Concrete input for the C2 counterexample: the summary header followed by a
single FAILED line.  The FAILED line is retained once by the signal-line loop
and reprinted once inside the attached summary block, so the final excerpt
shows two FAILED lines while the failed count is 1. -/
def c2raw : String := SHORT_SUMMARY_HEADER ++ "\nFAILED test_a"

/-- C2 counterexample: the `failed` count of the curated output does not match
what a reader of the final excerpt sees.  On `c2raw` the returned count is 1,
but the final excerpt contains two lines matching the FAILED pattern. -/
theorem curate_failed_count_not_from_excerpt :
    (curateJobExcerpt c2raw).counts.failed = 1 ∧
    ((splitLines (curateJobExcerpt c2raw).excerpt).countP
      (fun l => hasTokenST tokFAILED l)) = 2 := by
  constructor
  · decide
  · decide

/-- Accumulating the per-line indicator triple equals counting lines passing
each token test. -/
theorem foldl_lineCounts (l : List String) (a : LineCounts) :
    (l.foldl
      (fun acc t =>
        let c := countInteresting t
        LineCounts.mk (acc.err + c.err) (acc.fail + c.fail) (acc.xfail + c.xfail))
      a) =
    ⟨a.err + l.countP (fun t => hasTokenST tokERROR t),
     a.fail + l.countP (fun t => hasTokenST tokFAILED t),
     a.xfail + l.countP (fun t => hasTokenST tokXFAIL t)⟩ := by
  induction l generalizing a with
  | nil => simp
  | cons x xs ih =>
    rw [List.foldl_cons, ih]
    simp only [countInteresting, List.countP_cons, LineCounts.mk.injEq]
    refine ⟨?_, ?_, ?_⟩ <;> split <;> omega

/-- C2 amended: only the `lines` and `chars` fields are recomputed from the
post-truncation excerpt; the `error`, `failed` and `xfail` fields count the
retained (600-character-truncated) failure-signal lines gathered before the
summary block is attached and before SKIPPED-dropping and middle-truncation. -/
theorem curate_counts_amended (raw : String) :
    (curateJobExcerpt raw).counts.chars = strLen (curateJobExcerpt raw).excerpt ∧
    (curateJobExcerpt raw).counts.lines =
      (if strLen (curateJobExcerpt raw).excerpt ≠ 0 then
        (splitLines (curateJobExcerpt raw).excerpt).length else 0) ∧
    (curateJobExcerpt raw).counts.error =
      (keptSignalLines raw).countP (fun t => hasTokenST tokERROR t) ∧
    (curateJobExcerpt raw).counts.failed =
      (keptSignalLines raw).countP (fun t => hasTokenST tokFAILED t) ∧
    (curateJobExcerpt raw).counts.xfail =
      (keptSignalLines raw).countP (fun t => hasTokenST tokXFAIL t) := by
  have h := foldl_lineCounts (keptSignalLines raw) ⟨0, 0, 0⟩
  simp [curateJobExcerpt, signalCounts, h]

/-! ## Claim C7: failure-signal line classification -/

/-- Declarative reading of the claim: the line contains the literal token with
a left boundary (line start or a space/tab just before) and a right boundary
(line end or a space/tab just after). -/
def TokenBoundedST (tok line : String) : Prop :=
  ∃ pre post, line.data = pre ++ tok.data ++ post ∧
    (pre = [] ∨ ∃ pre' c, pre = pre' ++ [c] ∧ isSpaceTab c = true) ∧
    (post = [] ∨ ∃ d post', post = d :: post' ∧ isSpaceTab d = true)

/-- Generalized correspondence between the executable scanner and the
declarative occurrence statement; the flag states whether an occurrence may
start at the very head of the remaining list. -/
theorem scanTokST_iff (tok : List Char) (htok : tok ≠ []) :
    ∀ (l : List Char) (p : Bool),
    scanTokST tok p l = true ↔
      ∃ pre post, l = pre ++ tok ++ post ∧
        ((pre = [] ∧ p = true) ∨ ∃ pre' c, pre = pre' ++ [c] ∧ isSpaceTab c = true) ∧
        (post = [] ∨ ∃ d post', post = d :: post' ∧ isSpaceTab d = true) := by
  intro l
  induction l with
  | nil =>
    intro p
    constructor
    · intro h; simp [scanTokST] at h
    · rintro ⟨pre, post, heq, -, -⟩
      rw [List.append_assoc] at heq
      rcases List.append_eq_nil.mp heq.symm with ⟨-, h2⟩
      rcases List.append_eq_nil.mp h2 with ⟨h3, -⟩
      exact (htok h3).elim
  | cons c rest ih =>
    intro p
    have hstep : scanTokST tok p (c :: rest) =
        ((p && tok.isPrefixOf (c :: rest) && tailBoundaryST tok (c :: rest)) ||
          scanTokST tok (isSpaceTab c) rest) := rfl
    rw [hstep, Bool.or_eq_true, Bool.and_eq_true, Bool.and_eq_true]
    constructor
    · rintro (⟨⟨hp, hpfx⟩, hbd⟩ | hrec)
      · rcases List.isPrefixOf_iff_prefix.mp hpfx with ⟨t, ht⟩
        refine ⟨[], t, by simpa using ht.symm, Or.inl ⟨rfl, hp⟩, ?_⟩
        rw [tailBoundaryST, ← ht, List.drop_left] at hbd
        cases t with
        | nil => exact Or.inl rfl
        | cons d t' => exact Or.inr ⟨d, t', rfl, hbd⟩
      · rcases (ih (isSpaceTab c)).mp hrec with ⟨pre, post, heq, hpre, hpost⟩
        refine ⟨c :: pre, post, by simp [heq], ?_, hpost⟩
        rcases hpre with ⟨hnil, hst⟩ | ⟨pre', c', heq', hst⟩
        · exact Or.inr ⟨[], c, by simp [hnil], hst⟩
        · exact Or.inr ⟨c :: pre', c', by simp [heq'], hst⟩
    · rintro ⟨pre, post, heq, hpre, hpost⟩
      cases pre with
      | nil =>
        simp only [List.nil_append] at heq
        have hp : p = true := by
          rcases hpre with ⟨-, hp⟩ | ⟨pre', c', habs, -⟩
          · exact hp
          · exact absurd habs.symm (List.append_ne_nil_of_right_ne_nil pre' (by simp))
        have hpfx : tok.isPrefixOf (c :: rest) = true :=
          List.isPrefixOf_iff_prefix.mpr ⟨post, heq.symm⟩
        have hbd : tailBoundaryST tok (c :: rest) = true := by
          rw [tailBoundaryST, heq, List.drop_left]
          rcases hpost with rfl | ⟨d, post', rfl, hst⟩
          · rfl
          · exact hst
        exact Or.inl ⟨⟨hp, hpfx⟩, hbd⟩
      | cons c₀ pre₀ =>
        simp only [List.cons_append, List.cons.injEq] at heq
        obtain ⟨hc, hrest⟩ := heq
        refine Or.inr ((ih (isSpaceTab c)).mpr ⟨pre₀, post, hrest, ?_, hpost⟩)
        rcases hpre with ⟨habs, -⟩ | ⟨pre', c', hsplit, hst⟩
        · exact absurd habs (by simp)
        · cases pre' with
          | nil =>
            simp only [List.nil_append] at hsplit
            injection hsplit with h1 h2
            exact Or.inl ⟨h2, by rw [hc, h1]; exact hst⟩
          | cons q qs =>
            simp only [List.cons_append, List.cons.injEq] at hsplit
            exact Or.inr ⟨qs, c', hsplit.2, hst⟩

/-- Specialization of the scanner correspondence to a whole line (the line
start is a valid left boundary). -/
theorem hasTokenST_iff (tok line : String) (h : tok.data ≠ []) :
    hasTokenST tok line = true ↔ TokenBoundedST tok line := by
  rw [hasTokenST, scanTokST_iff tok.data h line.data true]
  constructor
  · rintro ⟨pre, post, h1, h2, h3⟩
    exact ⟨pre, post, h1, h2.imp And.left id, h3⟩
  · rintro ⟨pre, post, h1, h2, h3⟩
    exact ⟨pre, post, h1, h2.imp (fun a => ⟨a, rfl⟩) id, h3⟩

/-- Concrete input for the C7 counterexample: 600 ordinary characters followed
by a space and the ERROR token, so the token lies wholly beyond the 600-char
line-truncation point. -/
def c7line : String := ⟨List.replicate 600 'x' ++ (" ERROR" : String).data⟩

set_option maxRecDepth 100000 in
/-- C7 counterexample: a line containing a boundary-delimited ERROR token is
retained (the curated excerpt is nonempty) but not counted as an error line,
because the per-line count is evaluated on the 600-character-truncated form in
which the token no longer occurs.  This refutes the claimed equivalence of
being retained-and-counted with containing a token. -/
theorem signal_line_retained_not_counted :
    hasTokenST tokERROR c7line = true ∧
    (curateJobExcerpt c7line).counts.error = 0 ∧
    (curateJobExcerpt c7line).excerpt ≠ "" := by
  refine ⟨by decide, by decide, by decide⟩

/-- C7 amended: a line is retained iff the original line contains one of the
three literal tokens bounded by space, tab or a line edge (so ERRORED does not
match and got-ERROR-here matches, counted once); the per-line error count is
instead evaluated on the 600-character-truncated form of the line, which
agrees with the original whenever the line is within the 600-character
ceiling. -/
theorem signal_line_classification_amended (l : String) :
    (isInterestingLine l = true ↔
      (TokenBoundedST tokERROR l ∨ TokenBoundedST tokFAILED l ∨
        TokenBoundedST tokXFAIL l)) ∧
    ((countInteresting (truncateLine l)).err = 1 ↔
      TokenBoundedST tokERROR (truncateLine l)) ∧
    (strLen l ≤ MAX_LINE_CHARS → truncateLine l = l) ∧
    isInterestingLine "ERRORED: something" = false ∧
    countInteresting "got ERROR here" = ⟨1, 0, 0⟩ := by
  refine ⟨?_, ?_, ?_, by decide, by decide⟩
  · simp only [isInterestingLine, Bool.or_eq_true]
    rw [hasTokenST_iff tokERROR l (by decide), hasTokenST_iff tokFAILED l (by decide),
      hasTokenST_iff tokXFAIL l (by decide)]
    exact or_assoc
  · rw [← hasTokenST_iff tokERROR (truncateLine l) (by decide)]
    by_cases h : hasTokenST tokERROR (truncateLine l) = true <;>
      simp [countInteresting, h]
  · intro h
    rw [truncateLine, if_pos h]

/-- Witness for the amended C7 theorem at a concrete short line. -/
theorem signal_line_classification_amended_witness :
    truncateLine "got ERROR here" = "got ERROR here" :=
  (signal_line_classification_amended "got ERROR here").2.2.1 (by decide)

/-! ## Failure bundle byte cap (src/ci.ts, gatherFailures) -/

/-- Log entry of the failure bundle (src/types.ts, FailureBundle.logs). -/
structure LogEntry where
  jobId : Nat
  runId : Nat
  jobName : String
  text : String
deriving DecidableEq, Repr

/-- Models `Buffer.byteLength(l.text, "utf8")`. -/
def logByteSize (l : LogEntry) : Nat := l.text.utf8ByteSize

/-- Sum of UTF-8 byte lengths of the texts of the entries. -/
def byteSum (ls : List LogEntry) : Nat := (ls.map logByteSize).sum

/-- Accumulation loop of `gatherFailures` in src/ci.ts: entries are admitted in
order; the first entry that would push the running byte total past the limit
stops the loop, dropping that entry and every later one. -/
def capLogsAux (limit : Nat) (acc : Nat) : List LogEntry → List LogEntry
  | [] => []
  | l :: rest =>
    if limit < acc + logByteSize l then []
    else l :: capLogsAux limit (acc + logByteSize l) rest

/-- Models the total cap applied across logs by `gatherFailures`
(`totalLimitBytes = totalMB * 1024 * 1024`, accumulator starts at zero). -/
def gatherFailuresCappedLogs (logEntries : List LogEntry) (totalMB : Nat) : List LogEntry :=
  capLogsAux (totalMB * 1024 * 1024) 0 logEntries

/-- Unfolding lemma for the byte total of a cons. -/
theorem byteSum_cons (e : LogEntry) (r : List LogEntry) :
    byteSum (e :: r) = logByteSize e + byteSum r := by
  simp [byteSum]

/-- Invariant of the accumulation loop: the running total plus the admitted
bytes never exceeds the limit. -/
theorem capLogsAux_le (limit : Nat) :
    ∀ (l : List LogEntry) (acc : Nat), acc ≤ limit →
      acc + byteSum (capLogsAux limit acc l) ≤ limit := by
  intro l
  induction l with
  | nil => intro acc h; simpa [capLogsAux, byteSum] using h
  | cons e rest ih =>
    intro acc h
    rw [capLogsAux]
    split
    · simpa [byteSum] using h
    · next hle =>
        have h' : acc + logByteSize e ≤ limit := Nat.not_lt.mp hle
        have hrec := ih (acc + logByteSize e) h'
        rw [byteSum_cons]
        omega

/-- The accumulation loop admits a prefix of the entries, in order. -/
theorem capLogsAux_take (limit : Nat) :
    ∀ (l : List LogEntry) (acc : Nat),
      capLogsAux limit acc l = l.take (capLogsAux limit acc l).length := by
  intro l
  induction l with
  | nil => intro acc; simp [capLogsAux]
  | cons e rest ih =>
    intro acc
    rw [capLogsAux]
    split
    · simp
    · simp only [List.length_cons, List.take_succ_cons, List.cons.injEq, true_and]
      exact ih (acc + logByteSize e)

/-- When the loop stops early, the next prefix already exceeds the limit. -/
theorem capLogsAux_stop (limit : Nat) :
    ∀ (l : List LogEntry) (acc : Nat),
      (capLogsAux limit acc l).length < l.length →
      limit < acc + byteSum (l.take ((capLogsAux limit acc l).length + 1)) := by
  intro l
  induction l with
  | nil => intro acc h; simp [capLogsAux] at h
  | cons e rest ih =>
    intro acc h
    rw [capLogsAux] at h ⊢
    revert h
    split
    · next hgt =>
        intro _
        simpa [byteSum] using hgt
    · next hle =>
        intro h
        simp only [List.length_cons, Nat.add_lt_add_iff_right] at h
        have hrec := ih (acc + logByteSize e) h
        simp only [List.length_cons, List.take_succ_cons]
        rw [byteSum_cons]
        omega

/-- C10: in `gatherFailures` the admitted log entries are an in-order prefix of
the fetched entries, their UTF-8 byte total never exceeds
`totalMB * 1024 * 1024`, and the loop stops exactly at the first entry that
would exceed the cap — that entry and every later one are dropped. -/
theorem gatherFailures_logs_cap (logEntries : List LogEntry) (totalMB : Nat) :
    byteSum (gatherFailuresCappedLogs logEntries totalMB) ≤ totalMB * 1024 * 1024 ∧
    gatherFailuresCappedLogs logEntries totalMB =
      logEntries.take (gatherFailuresCappedLogs logEntries totalMB).length ∧
    ((gatherFailuresCappedLogs logEntries totalMB).length < logEntries.length →
      totalMB * 1024 * 1024 <
        byteSum (logEntries.take
          ((gatherFailuresCappedLogs logEntries totalMB).length + 1))) := by
  refine ⟨?_, ?_, ?_⟩
  · simpa using capLogsAux_le (totalMB * 1024 * 1024) logEntries 0 (Nat.zero_le _)
  · exact capLogsAux_take (totalMB * 1024 * 1024) logEntries 0
  · intro h
    simpa using capLogsAux_stop (totalMB * 1024 * 1024) logEntries 0 h

/-- Witness for C10: with a zero cap and one nonempty log entry, the entry is
dropped and the one-entry prefix already exceeds the cap. -/
theorem gatherFailures_logs_cap_witness :
    0 * 1024 * 1024 <
      byteSum (([⟨1, 2, "job", "a"⟩] : List LogEntry).take
        ((gatherFailuresCappedLogs [⟨1, 2, "job", "a"⟩] 0).length + 1)) :=
  (gatherFailures_logs_cap [⟨1, 2, "job", "a"⟩] 0).2.2 (by decide)

/-! ## Run extraction and the pending-CI gate (src/gather-ci.ts, src/report.ts) -/

/-- Fields of the `RunBrief` interface (src/types.ts). -/
structure RunBrief where
  id : Nat
  url : String
  status : String
  conclusion : Option String
  createdAt : Option String
  name : Option String
  headSha : Option String
deriving DecidableEq, Repr

/-- Fields of the `JobBrief` interface (src/types.ts). -/
structure JobBrief where
  id : Nat
  runId : Nat
  name : String
  html_url : String
  conclusion : Option String
  status : Option String
deriving DecidableEq, Repr

/-- Fields of the `JobExtract` interface (src/types.ts). -/
structure JobExtract where
  job : JobBrief
  excerpt : String
  counts : ExtractCounts
deriving DecidableEq, Repr

/-- Fields of the `RunExtract` interface (src/types.ts). -/
structure RunExtract where
  run : RunBrief
  jobs : List JobExtract
  totalCounts : ExtractCounts
deriving DecidableEq, Repr

/-- Models `toRunExtract` of src/report.ts: curate each listed job log (an
absent record entry degrades to the empty string) and accumulate the
element-wise totals. -/
def toRunExtract (run : RunBrief) (jobs : List JobBrief) (jobLogs : Nat → Option String) :
    RunExtract :=
  let jobExtracts := jobs.map (fun jb =>
    let r := curateJobExcerpt (jsOrOptStr (jobLogs jb.id) "")
    JobExtract.mk jb r.excerpt r.counts)
  { run := run
    jobs := jobExtracts
    totalCounts := jobExtracts.foldl
      (fun a jx =>
        ⟨a.error + jx.counts.error, a.failed + jx.counts.failed,
         a.xfail + jx.counts.xfail, a.lines + jx.counts.lines,
         a.chars + jx.counts.chars⟩)
      ⟨0, 0, 0, 0, 0⟩ }

/-- Membership test of the `failureLike` set of src/gather-ci.ts and
src/ci.ts. -/
def failureLike (s : String) : Bool :=
  s == "failure" || s == "timed_out" || s == "cancelled"

/-- Models the JS guard `conclusion && failureLike.has(conclusion)`. -/
def optFailureLike (o : Option String) : Bool :=
  match o with
  | some c => failureLike c
  | none => false

/-- Element of the `gh.listJobsForRun` result as consumed by
`fetchRunExtract`. -/
structure JobInfo where
  id : Nat
  name : String
  html_url : String
  conclusion : Option String
  status : Option String
deriving DecidableEq, Repr

/-- Failing-job selection of `fetchRunExtract` (filter and `JobBrief`
projection). -/
def failingJobsOf (run : RunBrief) (jobs : List JobInfo) : List JobBrief :=
  (jobs.filter (fun j =>
    optFailureLike j.conclusion ||
    (run.status != "completed" && j.status == some "completed" &&
      optFailureLike j.conclusion))).map
    (fun j => JobBrief.mk j.id run.id j.name j.html_url j.conclusion j.status)

/-- Placeholder text substituted when a job log fetch fails. -/
def LOG_FETCH_PLACEHOLDER : String :=
  "(unable to fetch logs for this job; open in browser)"

/-- Models `fetchRunExtract` of src/gather-ci.ts.  The `fetchLog` argument
yields the fetched raw log or signals a fetch failure, which degrades to the
placeholder string. -/
def fetchRunExtract (force : Bool) (run : RunBrief) (jobs : List JobInfo)
    (fetchLog : Nat → Option String) : Option RunExtract :=
  let failingJobs := failingJobsOf run jobs
  if failingJobs.isEmpty && run.status != "completed" then
    if force then some ⟨run, [], ⟨0, 0, 0, 0, 0⟩⟩ else none
  else
    let jobLogs : Nat → Option String := fun i =>
      if (failingJobs.map (fun jb => jb.id)).contains i then
        some (match fetchLog i with
              | some raw => raw
              | none => LOG_FETCH_PLACEHOLDER)
      else none
    some (toRunExtract run failingJobs jobLogs)

/-- Outcome of one gather-ci invocation: the process exit code and the run
extracts of the written report (none when no report is produced). -/
structure GatherCiOutcome where
  exitCode : Nat
  report : Option (List RunExtract)
deriving DecidableEq, Repr

/-- Models the run-selection core of `runGatherCi` in src/gather-ci.ts: the
pending gate, then extraction of completed failing runs followed, when forced,
by the pending runs. -/
def runGatherCi (runs : List RunBrief) (jobsOf : Nat → List JobInfo)
    (fetchLog : Nat → Option String) (force : Bool) : GatherCiOutcome :=
  let inProgress := runs.filter (fun r => r.status != "completed")
  let completedFailing := runs.filter
    (fun r => r.status == "completed" && optFailureLike r.conclusion)
  if !inProgress.isEmpty && !force then
    { exitCode := 2, report := none }
  else
    let extracts :=
      (completedFailing.filterMap
        (fun r => fetchRunExtract force r (jobsOf r.id) fetchLog)) ++
      (if force then
        inProgress.filterMap
          (fun r => fetchRunExtract force r (jobsOf r.id) fetchLog)
      else [])
    { exitCode := 0, report := some extracts }

/-- C5: with `force = false`, any run outside the completed status makes the
whole gather end with exit code 2 and no report; with `force = true`, every
pending run without completed-and-failing jobs contributes a `RunExtract` with
an empty job list and all-zero totals to the produced report rather than being
omitted. -/
theorem pending_ci_gate (runs : List RunBrief) (jobsOf : Nat → List JobInfo)
    (fetchLog : Nat → Option String) :
    ((∃ r ∈ runs, r.status ≠ "completed") →
      runGatherCi runs jobsOf fetchLog false = { exitCode := 2, report := none }) ∧
    (∀ r ∈ runs, r.status ≠ "completed" →
      failingJobsOf r (jobsOf r.id) = [] →
      ∃ extracts,
        runGatherCi runs jobsOf fetchLog true =
          { exitCode := 0, report := some extracts } ∧
        (⟨r, [], ⟨0, 0, 0, 0, 0⟩⟩ : RunExtract) ∈ extracts) := by
  constructor
  · rintro ⟨r, hr, hst⟩
    have hmem : r ∈ runs.filter (fun r => r.status != "completed") :=
      List.mem_filter.mpr ⟨hr, by simpa using hst⟩
    have hne : (runs.filter (fun r => r.status != "completed")).isEmpty = false := by
      cases h : (runs.filter (fun r => r.status != "completed")).isEmpty
      · rfl
      · exact absurd (List.isEmpty_iff.mp h ▸ hmem) (List.not_mem_nil r)
    simp [runGatherCi, hne]
  · intro r hr hst hjobs
    have hmem : r ∈ runs.filter (fun r => r.status != "completed") :=
      List.mem_filter.mpr ⟨hr, by simpa using hst⟩
    have hbne : (r.status != "completed") = true := by simpa using hst
    have hfetch : fetchRunExtract true r (jobsOf r.id) fetchLog =
        some ⟨r, [], ⟨0, 0, 0, 0, 0⟩⟩ := by
      rw [fetchRunExtract]
      simp [hjobs, hbne]
    refine ⟨(runs.filter
        (fun r => r.status == "completed" && optFailureLike r.conclusion)).filterMap
          (fun r => fetchRunExtract true r (jobsOf r.id) fetchLog) ++
        (runs.filter (fun r => r.status != "completed")).filterMap
          (fun r => fetchRunExtract true r (jobsOf r.id) fetchLog), ?_, ?_⟩
    · rw [runGatherCi]
      simp
    · exact List.mem_append.mpr (Or.inr (List.mem_filterMap.mpr ⟨r, hmem, hfetch⟩))

/-- Concrete pending run for the C5 witness. -/
def run0 : RunBrief := ⟨1, "https://run/1", "in_progress", none, none, none, none⟩

/-- Witness for C5: one pending run and no force ends with exit code 2 and no
report. -/
theorem pending_ci_gate_witness :
    runGatherCi [run0] (fun _ => []) (fun _ => none) false =
      { exitCode := 2, report := none } :=
  (pending_ci_gate [run0] (fun _ => []) (fun _ => none)).1
    ⟨run0, by decide, by decide⟩

/-! ## Claim C6: excerpt boundedness -/

/-- One step of `splitRN` past an ordinary character. -/
theorem splitRN_cons_other (c : Char) (xs : List Char) (h1 : c ≠ '\r') (h2 : c ≠ '\n') :
    splitRN (c :: xs) = (splitRN xs).modifyHead (c :: ·) := by
  rw [splitRN.eq_def]
  split <;> simp_all

/-- Splitting a clean line followed by a separator peels off that line. -/
theorem splitRN_append_newline (l rest : List Char)
    (h : ∀ c ∈ l, c ≠ '\n' ∧ c ≠ '\r') :
    splitRN (l ++ '\n' :: rest) = l :: splitRN rest := by
  induction l with
  | nil => simp [splitRN]
  | cons c l' ih =>
    have hc := h c (List.mem_cons_self c l')
    rw [List.cons_append, splitRN_cons_other c _ hc.2 hc.1]
    rw [ih (fun d hd => h d (List.mem_cons_of_mem c hd))]
    rfl

/-- Splitting a clean line yields that single line. -/
theorem splitRN_clean (l : List Char) (h : ∀ c ∈ l, c ≠ '\n' ∧ c ≠ '\r') :
    splitRN l = [l] := by
  induction l with
  | nil => rfl
  | cons c l' ih =>
    have hc := h c (List.mem_cons_self c l')
    rw [splitRN_cons_other c _ hc.2 hc.1]
    rw [ih (fun d hd => h d (List.mem_cons_of_mem c hd))]
    rfl

/-- Splitting the newline-join of replicated clean lines recovers the lines. -/
theorem splitRN_joinSep_replicate (k : Nat) (l : List Char)
    (h : ∀ c ∈ l, c ≠ '\n' ∧ c ≠ '\r') :
    splitRN (joinSep ['\n'] (List.replicate (k + 1) l)) = List.replicate (k + 1) l := by
  induction k with
  | zero => simpa [joinSep] using splitRN_clean l h
  | succ k ih =>
    rw [List.replicate_succ]
    have hjoin : joinSep ['\n'] (l :: List.replicate (k + 1) l) =
        l ++ '\n' :: joinSep ['\n'] (List.replicate (k + 1) l) := by
      rw [List.replicate_succ]
      conv_lhs => rw [joinSep]
      simp
    rw [hjoin, splitRN_append_newline l _ h, ih]

/-- Length of the separator-join of replicated lines. -/
theorem length_joinSep_replicate (sep l : List Char) :
    ∀ k : Nat, (joinSep sep (List.replicate (k + 1) l)).length =
      (k + 1) * l.length + k * sep.length := by
  intro k
  induction k with
  | zero => simp [joinSep]
  | succ k ih =>
    rw [List.replicate_succ, show joinSep sep (l :: List.replicate (k + 1) l) =
        l ++ sep ++ joinSep sep (List.replicate (k + 1) l) by
      rw [show List.replicate (k + 1) l = l :: List.replicate k l from List.replicate_succ .. ]
      rw [joinSep]]
    simp only [List.length_append, ih]
    ring

/-- A character occurring in a separator-join occurs in the separator or in
one of the joined lists. -/
theorem not_mem_joinSep (sep : List Char) (c : Char) (hsep : c ∉ sep) :
    ∀ ls : List (List Char), (∀ l ∈ ls, c ∉ l) → c ∉ joinSep sep ls := by
  intro ls
  induction ls with
  | nil => intro _; simp [joinSep]
  | cons l ls' ih =>
    intro h
    cases ls' with
    | nil => simpa [joinSep] using h l (List.mem_cons_self l [])
    | cons l2 ls'' =>
      rw [joinSep]
      simp only [List.mem_append, not_or]
      exact ⟨⟨h l (List.mem_cons_self l _), hsep⟩,
        ih (fun d hd => h d (List.mem_cons_of_mem l hd))⟩

/-- A pattern containing a character that the text lacks never occurs. -/
theorem idxOf_eq_none_of_missing_char (pat : List Char) (c : Char)
    (hc : c ∈ pat) :
    ∀ text : List Char, c ∉ text → idxOfList pat text = none := by
  intro text
  induction text with
  | nil =>
    intro _
    rw [idxOfList]
    have : pat.isEmpty = false := by
      cases pat with
      | nil => exact absurd hc (List.not_mem_nil c)
      | cons p ps => rfl
    rw [this]
    rfl
  | cons d rest ih =>
    intro hnm
    rw [idxOfList]
    have hpfx : pat.isPrefixOf (d :: rest) = false := by
      cases h : pat.isPrefixOf (d :: rest)
      · rfl
      · have hsub := (List.isPrefixOf_iff_prefix.mp h).sublist
        exact absurd (hsub.mem hc) hnm
    rw [hpfx]
    simp only [Bool.false_eq_true, if_false]
    rw [ih (fun hmem => hnm (List.mem_cons_of_mem d hmem))]
    rfl

/-- One 600-character log line opening with a boundary-delimited ERROR token
and containing neither newline, carriage return, equals sign nor any SKIPPED
occurrence. -/
def c6line : String := ⟨("ERROR " : String).data ++ List.replicate 594 'a'⟩

/-- Number of replicated lines of the C6 input. -/
def c6k : Nat := 200000

/-- Concrete input for the C6 counterexample: 200000 interesting lines of 600
characters joined by newlines, 120199999 characters in total, whose curated
pre-truncation excerpt equals the input and exceeds the 12000-character cap by
a nine-digit amount. -/
def rawBig : String := joinLines (List.replicate c6k c6line)

set_option maxRecDepth 100000 in
/-- The C6 line contains no separator-relevant characters. -/
theorem c6line_clean : ∀ c ∈ c6line.data, c ≠ '\n' ∧ c ≠ '\r' := by decide

/-- Character-list form of the C6 input. -/
theorem rawBig_data : rawBig.data = joinSep ['\n'] (List.replicate c6k c6line.data) := by
  show joinSep ['\n'] ((List.replicate c6k c6line).map String.data) = _
  rw [List.map_replicate]

/-- Length of the C6 input. -/
theorem rawBig_len : strLen rawBig = 120199999 := by
  have h600 : c6line.data.length = 600 := by
    show (("ERROR " : String).data ++ List.replicate 594 'a').length = 600
    rw [List.length_append, List.length_replicate]
    rfl
  rw [strLen, rawBig_data, show c6k = 199999 + 1 by rfl,
    length_joinSep_replicate ['\n'] c6line.data 199999, h600]
  norm_num

/-- Splitting the C6 input recovers its replicated lines. -/
theorem rawBig_split : splitLines rawBig = List.replicate c6k c6line := by
  rw [splitLines, rawBig_data, show c6k = 199999 + 1 by rfl,
    splitRN_joinSep_replicate 199999 c6line.data c6line_clean, List.map_replicate]

set_option maxRecDepth 100000 in
/-- The C6 line is interesting and short enough to survive line truncation. -/
theorem c6line_kept : isInterestingLine c6line = true ∧ truncateLine c6line = c6line := by
  constructor
  · decide
  · decide

/-- Retained signal lines of the C6 input. -/
theorem rawBig_kept : keptSignalLines rawBig = List.replicate c6k c6line := by
  rw [keptSignalLines, rawBig_split, List.filter_replicate, c6line_kept.1]
  simp only [if_pos]
  rw [List.map_replicate, c6line_kept.2]

set_option maxRecDepth 100000 in
/-- The equals sign occurs in the summary header but nowhere in the C6
input. -/
theorem rawBig_no_header : extractShortSummaryBlock rawBig = none := by
  have hnm : '=' ∉ rawBig.data := by
    rw [rawBig_data]
    refine not_mem_joinSep ['\n'] '=' (by decide) _ ?_
    intro l hl
    rw [List.eq_of_mem_replicate hl]
    decide
  rw [extractShortSummaryBlock,
    idxOf_eq_none_of_missing_char SHORT_SUMMARY_HEADER.data '=' (by decide) rawBig.data hnm]
  rfl

/-- The pre-SKIPPED-drop excerpt of the C6 input is the input itself. -/
theorem rawBig_pre : preSkipExcerpt rawBig = rawBig := by
  rw [preSkipExcerpt, rawBig_kept, summaryTailLines, rawBig_no_header, List.append_nil]
  rfl

set_option maxRecDepth 100000 in
/-- The C6 line survives the SKIPPED filter. -/
theorem c6line_noskip : (!hasTokenWord "SKIPPED" c6line) = true := by decide

/-- The SKIPPED-dropping step leaves the C6 excerpt unchanged. -/
theorem rawBig_post : postSkipExcerpt rawBig = rawBig := by
  rw [postSkipExcerpt]
  simp only [rawBig_pre]
  rw [if_pos (by rw [rawBig_len]; norm_num [TRIM_SKIPPED_THRESHOLD])]
  rw [rawBig_split, List.filter_replicate, c6line_noskip]
  simp only [if_pos]
  rw [show joinLines (List.replicate c6k c6line) = rawBig from rfl]
  rw [if_pos (by rw [rawBig_len]; norm_num)]

/-- Length step of the digit renderer for a number of at least two digits. -/
theorem digitsRev_length_step (f n : Nat) (h : ¬ n < 10) :
    (digitsRev (f + 1) n).length = 1 + (digitsRev f (n / 10)).length := by
  rw [digitsRev]
  simp [h]
  omega

/-- Exact digit count of the fuel-driven renderer. -/
theorem digitsRev_length_exact :
    ∀ (k f n : Nat), n < f → 10 ^ k ≤ n → n < 10 ^ (k + 1) →
      (digitsRev f n).length = k + 1 := by
  intro k
  induction k with
  | zero =>
    intro f n hf hlo hhi
    cases f with
    | zero => exact absurd hf (Nat.not_lt_zero n)
    | succ g =>
      rw [digitsRev]
      rw [if_pos (by simpa using hhi)]
      rfl
  | succ k ih =>
    intro f n hf hlo hhi
    have h10 : ¬ n < 10 := by
      have : (10 : Nat) ≤ 10 ^ (k + 1) := by
        calc (10 : Nat) = 10 ^ 1 := (pow_one 10).symm
        _ ≤ 10 ^ (k + 1) := Nat.pow_le_pow_right (by norm_num) (by omega)
      omega
    cases f with
    | zero => exact absurd hf (Nat.not_lt_zero n)
    | succ g =>
      rw [digitsRev_length_step g n h10]
      have hrec : (digitsRev g (n / 10)).length = k + 1 := by
        refine ih g (n / 10) ?_ ?_ ?_
        · have : n / 10 < n := Nat.div_lt_self (by omega) (by norm_num)
          omega
        · have hmul : 10 ^ k * 10 ≤ n := by
            rw [← pow_succ]
            exact hlo
          exact Nat.le_div_iff_mul_le (by norm_num) |>.mpr hmul
        · have hmul : (10 : Nat) * 10 ^ (k + 1) = 10 ^ (k + 2) := by
            rw [mul_comm, ← pow_succ]
          exact Nat.div_lt_of_lt_mul (hmul ▸ hhi)
      rw [hrec]
      omega

/-- Nine digits of the dropped-character count of the C6 input. -/
theorem c6_digits_len : (decimalChars 120187999).length = 9 := by
  rw [decimalChars, List.length_reverse]
  refine digitsRev_length_exact 8 (120187999 + 1) 120187999 (Nat.lt_succ_self _) ?_ ?_
  · norm_num
  · norm_num

/-- Symbolic length formula of middle truncation in the truncating case. -/
theorem truncateMiddle_length (s : String) (mx : Nat) (h : ¬ strLen s ≤ mx)
    (hh : Nat.max 1 ((mx - 32) / 2) ≤ strLen s) :
    strLen (truncateMiddle s mx) =
      2 * Nat.max 1 ((mx - 32) / 2) + 24 + (decimalChars (strLen s - mx)).length := by
  rw [truncateMiddle, if_neg h]
  simp only [strLen, List.length_append, List.length_take, List.length_drop]
  rw [show (("\n… [truncated " : String).data).length = 14 from rfl]
  rw [show ((" chars] …\n" : String).data).length = 10 from rfl]
  have hL : Nat.max 1 ((mx - 32) / 2) ≤ s.data.length := hh
  omega

/-- Length of the middle-truncated C6 excerpt: two 5984-character halves plus
the 24 fixed marker characters plus the nine digits of 120187999. -/
theorem rawBig_final_len : strLen (finalExcerpt rawBig) = 12001 := by
  rw [finalExcerpt, rawBig_post]
  rw [truncateMiddle_length rawBig MAX_JOB_EXCERPT_CHARS
    (by rw [rawBig_len]; norm_num [MAX_JOB_EXCERPT_CHARS])
    (by rw [rawBig_len]; norm_num [MAX_JOB_EXCERPT_CHARS])]
  rw [rawBig_len]
  rw [show (120199999 : Nat) - MAX_JOB_EXCERPT_CHARS = 120187999 by
    norm_num [MAX_JOB_EXCERPT_CHARS]]
  rw [c6_digits_len]
  norm_num [MAX_JOB_EXCERPT_CHARS]

/-- C6 counterexample: the curated excerpt of the concrete input `rawBig` has
12001 characters, exceeding the claimed universal 12000-character ceiling (the
middle-truncation marker renders a nine-digit dropped-character count). -/
theorem curate_excerpt_exceeds_bound :
    MAX_JOB_EXCERPT_CHARS < strLen (curateJobExcerpt rawBig).excerpt := by
  have h : (curateJobExcerpt rawBig).excerpt = finalExcerpt rawBig := by
    simp only [curateJobExcerpt]
  rw [h, rawBig_final_len]
  norm_num [MAX_JOB_EXCERPT_CHARS]

/-- Digit-count upper bound of the fuel-driven renderer. -/
theorem digitsRev_length_le :
    ∀ (fuel n k : Nat), n < fuel → n < 10 ^ k → 1 ≤ k →
      (digitsRev fuel n).length ≤ k := by
  intro fuel
  induction fuel with
  | zero => intro n k h _ _; exact absurd h (Nat.not_lt_zero n)
  | succ f ih =>
    intro n k hf hk hk1
    rw [digitsRev]
    split
    · simpa using hk1
    · next hge =>
      have h10 : 10 ≤ n := Nat.not_lt.mp hge
      have hk2 : 2 ≤ k := by
        rcases Nat.lt_or_ge k 2 with hlt | hge2
        · exfalso
          have hk1' : k = 1 := by omega
          rw [hk1', pow_one] at hk
          omega
        · exact hge2
      have hrec : (digitsRev f (n / 10)).length ≤ k - 1 := by
        refine ih (n / 10) (k - 1) ?_ ?_ ?_
        · have : n / 10 < n := Nat.div_lt_self (by omega) (by norm_num)
          omega
        · have hmul : (10 : Nat) * 10 ^ (k - 1) = 10 ^ k := by
            rw [mul_comm, ← pow_succ]
            congr 1
            omega
          exact Nat.div_lt_of_lt_mul (hmul ▸ hk)
        · omega
      simp only [List.length_cons]
      omega

/-- Digit-count upper bound of the decimal rendering. -/
theorem decimalChars_length_le (n k : Nat) (h : n < 10 ^ k) (hk : 1 ≤ k) :
    (decimalChars n).length ≤ k := by
  rw [decimalChars, List.length_reverse]
  exact digitsRev_length_le (n + 1) n k (Nat.lt_succ_self n) h hk

/-- Middle truncation respects the 12000 cap whenever the dropped-character
count has at most eight digits. -/
theorem truncateMiddle_le (s : String) (h : strLen s < 100012000) :
    strLen (truncateMiddle s MAX_JOB_EXCERPT_CHARS) ≤ MAX_JOB_EXCERPT_CHARS := by
  by_cases hle : strLen s ≤ MAX_JOB_EXCERPT_CHARS
  · rw [truncateMiddle, if_pos hle]
    exact hle
  · have hh : Nat.max 1 ((MAX_JOB_EXCERPT_CHARS - 32) / 2) ≤ strLen s := by
      rw [show Nat.max 1 ((MAX_JOB_EXCERPT_CHARS - 32) / 2) = 5984 from by
        norm_num [MAX_JOB_EXCERPT_CHARS]]
      simp only [MAX_JOB_EXCERPT_CHARS] at hle
      omega
    rw [truncateMiddle_length s MAX_JOB_EXCERPT_CHARS hle hh]
    have hdig : (decimalChars (strLen s - MAX_JOB_EXCERPT_CHARS)).length ≤ 8 := by
      refine decimalChars_length_le _ 8 ?_ (by norm_num)
      have h8 : (10 : Nat) ^ 8 = 100000000 := by norm_num
      rw [h8]
      simp only [MAX_JOB_EXCERPT_CHARS] at hle ⊢
      omega
    rw [show Nat.max 1 ((MAX_JOB_EXCERPT_CHARS - 32) / 2) = 5984 from by
      norm_num [MAX_JOB_EXCERPT_CHARS]]
    simp only [MAX_JOB_EXCERPT_CHARS] at hdig ⊢
    omega

/-- C6 amended: the curated excerpt is at most 12000 characters whenever the
pre-truncation excerpt is shorter than 100012000 characters (equivalently,
whenever the truncation marker needs at most eight digits); the concrete input
`rawBig` shows the bound fails beyond that size. -/
theorem curate_excerpt_bounded_amended (raw : String)
    (h : strLen (postSkipExcerpt raw) < 100012000) :
    strLen (curateJobExcerpt raw).excerpt ≤ MAX_JOB_EXCERPT_CHARS :=
  truncateMiddle_le (postSkipExcerpt raw) h

/-- Witness for the amended C6 theorem at a small concrete input. -/
theorem curate_excerpt_bounded_amended_witness :
    strLen (postSkipExcerpt "x ERROR y") < 100012000 ∧
    strLen (curateJobExcerpt "x ERROR y").excerpt ≤ MAX_JOB_EXCERPT_CHARS :=
  ⟨by decide, curate_excerpt_bounded_amended "x ERROR y" (by decide)⟩

/-! ## Comment reconciler (src/comments.ts) -/

/-- Issue comment as returned by `listCommentsRest` (src/github.ts). -/
structure IssueC where
  id : Nat
  body : String
  created_at : String
  updated_at : Option String
  html_url : String
  user : String
deriving DecidableEq, Repr

/-- Review line comment as returned by `listCommentsRest`. -/
structure ReviewC where
  id : Nat
  body : String
  created_at : String
  updated_at : Option String
  html_url : String
  user : String
  path : String
  line : Option Nat
  start_line : Option Nat
  original_line : Option Nat
  side : Option String
  commit_id : Option String
  in_reply_to_id : Option Nat
  thread_id : Option Nat
deriving DecidableEq, Repr

/-- Review summary as returned by `listCommentsRest`. -/
structure ReviewS where
  id : Nat
  body : String
  state : String
  html_url : String
  submitted_at : Option String
  created_at : Option String
  updated_at : Option String
  user : String
deriving DecidableEq, Repr

/-- The `source` tag of a `CommentItem` (src/types.ts). -/
inductive CommentSource where
  | issue
  | review_line
  | review_summary
deriving DecidableEq, Repr

/-- Rendering of the source tag used in singleton thread keys. -/
def sourceStr : CommentSource → String
  | .issue => "issue"
  | .review_line => "review_line"
  | .review_summary => "review_summary"

/-- Fields of the `ReviewLineInfo` interface as populated by
`gatherComments`. -/
structure ReviewLineInfo where
  path : String
  startLine : Option Nat
  line : Option Nat
  side : Option String
  originalLine : Option Nat
  commitId : Option String
  inReplyToId : Option String
  threadId : String
deriving DecidableEq, Repr

/-- Fields of the `CommentItem` interface (src/types.ts). -/
structure CommentItem where
  id : String
  url : String
  author : String
  body : String
  createdAt : String
  updatedAt : Option String
  source : CommentSource
  reviewState : Option String
  reviewId : Option String
  line : Option ReviewLineInfo
  parentId : Option String
deriving DecidableEq, Repr

/-- Fields of the `CommentThread` interface (src/types.ts). -/
structure CommentThread where
  threadId : String
  path : Option String
  comments : List CommentItem
  headCommit : Option String
  isResolved : Option Bool
deriving DecidableEq, Repr

/-- Fields of the `CommentSnapshot` interface (src/types.ts). -/
structure CommentSnapshot where
  prNumber : Nat
  sinceIso : String
  collectedAt : String
  totalCount : Nat
  threads : List CommentThread
deriving DecidableEq, Repr

/-- Models JS truthiness of a possibly absent number (zero is falsy). -/
def jsNatTruthy : Option Nat → Bool
  | some n => n != 0
  | none => false

/-- Models `o ? String(o) : null` for a possibly absent number. -/
def optNatStrTruthy (o : Option Nat) : Option String :=
  if jsNatTruthy o then some (natToStr (o.getD 0)) else none

/-- Models `s || null`. -/
def jsOrNullStr (s : String) : Option String := if s = "" then none else some s

/-- Models `o || null` for a possibly absent string. -/
def jsOrNullOpt (o : Option String) : Option String :=
  match o with
  | some s => jsOrNullStr s
  | none => none

/-- Per-character lowercasing; models `s.toLowerCase()` for the author
allowlist. -/
def strToLower (s : String) : String := ⟨s.data.map Char.toLower⟩

/-- Conversion of an issue comment to a unified item (src/comments.ts). -/
def issueItem (c : IssueC) : CommentItem :=
  { id := natToStr c.id
    url := c.html_url
    author := jsOrStr c.user "unknown"
    body := c.body
    createdAt := c.created_at
    updatedAt := c.updated_at
    source := .issue
    reviewState := none
    reviewId := none
    line := none
    parentId := none }

/-- Thread key of a review line comment: server thread id, else the
in-reply-to id, else the path-and-commit fallback (src/comments.ts). -/
def rcThreadId (rc : ReviewC) : String :=
  if jsNatTruthy rc.thread_id then natToStr (rc.thread_id.getD 0)
  else if jsNatTruthy rc.in_reply_to_id then natToStr (rc.in_reply_to_id.getD 0)
  else rc.path ++ ":" ++ jsOrOptStr rc.commit_id ""

/-- The `ReviewLineInfo` populated for a review line comment. -/
def rcInfo (rc : ReviewC) : ReviewLineInfo :=
  { path := rc.path
    startLine := rc.start_line
    line := rc.line
    side := rc.side
    originalLine := rc.original_line
    commitId := rc.commit_id
    inReplyToId := optNatStrTruthy rc.in_reply_to_id
    threadId := rcThreadId rc }

/-- Conversion of a review line comment to a unified item. -/
def rcItem (rc : ReviewC) : CommentItem :=
  { id := natToStr rc.id
    url := rc.html_url
    author := jsOrStr rc.user "unknown"
    body := rc.body
    createdAt := rc.created_at
    updatedAt := rc.updated_at
    source := .review_line
    reviewState := none
    reviewId := none
    line := some (rcInfo rc)
    parentId := (rcInfo rc).inReplyToId }

/-- Fresh thread skeleton created on first sight of a thread key. -/
def rcNewThread (rc : ReviewC) (tid : String) : CommentThread :=
  { threadId := tid
    path := jsOrNullStr rc.path
    comments := []
    headCommit := jsOrNullOpt rc.commit_id
    isResolved := none }

/-- One step of the `byThread` map construction: create the thread on first
sight (insertion order preserved, as for a JS Map) and append the comment to
it. -/
def addReviewComment (ts : List CommentThread) (rc : ReviewC) : List CommentThread :=
  let tid := jsOrStr (rcThreadId rc) (rc.path ++ ":" ++ jsOrOptStr rc.commit_id "")
  let ts' := if ts.any (fun t => t.threadId == tid) then ts else ts ++ [rcNewThread rc tid]
  ts'.map (fun t =>
    if t.threadId == tid then { t with comments := t.comments ++ [rcItem rc] } else t)

/-- The `byThread` insertion-ordered map of src/comments.ts as a list. -/
def byThreadList (reviewComments : List ReviewC) : List CommentThread :=
  reviewComments.foldl addReviewComment []

/-- Conversion of a review summary to a unified item. -/
def reviewItem (r : ReviewS) : CommentItem :=
  { id := natToStr r.id
    url := r.html_url
    author := jsOrStr r.user "unknown"
    body := r.body
    createdAt := jsOrOptStr r.submitted_at
      (jsOrOptStr r.created_at (jsOrOptStr r.updated_at (jsOrOptStr r.created_at "")))
    updatedAt := r.updated_at
    source := .review_summary
    reviewState := some r.state
    reviewId := some (natToStr r.id)
    line := none
    parentId := none }

/-- Author allowlist construction (lowercased, absent when empty). -/
def mkAuthorSet (authors : Option (List String)) : Option (List String) :=
  match authors with
  | some l => if l.isEmpty then none else some (l.map strToLower)
  | none => none

/-- Review-state allowlist construction (absent when empty). -/
def mkStateSet (states : Option (List String)) : Option (List String) :=
  match states with
  | some l => if l.isEmpty then none else some l
  | none => none

/-- Models `keepItem` of src/comments.ts: case-insensitive author allowlist,
and the review-state allowlist applied only to review summaries with a truthy
state. -/
def keepItem (authorSet stateSet : Option (List String)) (i : CommentItem) : Bool :=
  let authorOk := match authorSet with
    | some l => l.contains (strToLower i.author)
    | none => true
  let stateOk := match stateSet with
    | some l =>
      if i.source == .review_summary then
        match i.reviewState with
        | some st => if st == "" then true else l.contains st
        | none => true
      else true
    | none => true
  authorOk && stateOk

/-- Lexicographic code-point comparison of character lists; models the
ascending comparator `a.localeCompare(b) <= 0` used by the two sorts of
src/comments.ts (timestamps are ISO strings, compared code unit by code
unit). -/
def leChars : List Char → List Char → Bool
  | [], _ => true
  | _ :: _, [] => false
  | a :: as, b :: bs =>
    if a.toNat < b.toNat then true
    else if b.toNat < a.toNat then false
    else leChars as bs

/-- String-level wrapper for `leChars`. -/
def leStr (a b : String) : Bool := leChars a.data b.data

/-- Stable ascending insertion: the new element goes after every element whose
key is less than or equal, matching the stability of `Array.prototype.sort`
with an ascending comparator. -/
def insertByKey {α : Type} (key : α → String) (x : α) : List α → List α
  | [] => [x]
  | y :: ys => if leStr (key y) (key x) then y :: insertByKey key x ys else x :: y :: ys

/-- Stable ascending sort by a string key; models
`array.sort((a, b) => keyA.localeCompare(keyB))`. -/
def sortByKey {α : Type} (key : α → String) (l : List α) : List α :=
  l.foldl (fun acc x => insertByKey key x acc) []

/-- Sort key of the thread ordering: the timestamp of the most recent (last)
comment, empty for an empty thread. -/
def lastCommentKey (t : CommentThread) : String :=
  match t.comments.getLast? with
  | some c => c.createdAt
  | none => ""

/-- Running total of comments over threads, as the `reduce` in
src/comments.ts computes it. -/
def totalComments (ts : List CommentThread) : Nat :=
  ts.foldl (fun n t => n + t.comments.length) 0

/-- Models the cap-enforcement loop of src/comments.ts: drop whole threads
from the front (the oldest, the list being sorted ascending by most recent
comment) while the total comment count exceeds the cap. -/
def evictOldest (cap : Nat) : List CommentThread → List CommentThread
  | [] => []
  | t :: rest =>
    if cap < totalComments (t :: rest) then evictOldest cap rest else t :: rest

/-- Line-comment threads after per-thread sorting and filtering, nonempty
only (src/comments.ts, the `threads` construction). -/
def filteredThreads (reviewComments : List ReviewC)
    (authorSet stateSet : Option (List String)) : List CommentThread :=
  ((byThreadList reviewComments).map
    (fun t => { t with comments :=
      (sortByKey (fun c => c.createdAt) t.comments).filter (keepItem authorSet stateSet) })).filter
    (fun t => !t.comments.isEmpty)

/-- Singleton threads of the non-threaded items (issue comments and review
summaries), in item order. -/
def singletonThreads (issueComments : List IssueC) (reviews : List ReviewS)
    (authorSet stateSet : Option (List String)) : List CommentThread :=
  (((issueComments.map issueItem ++ reviews.map reviewItem).filter
      (fun i => i.source != CommentSource.review_line)).filter
    (keepItem authorSet stateSet)).map
    (fun i => CommentThread.mk (sourceStr i.source ++ ":" ++ i.id) none [i] none none)

/-- All threads ordered ascending by the most recent comment, before the cap
is applied. -/
def allThreadsPreCap (issueComments : List IssueC) (reviewComments : List ReviewC)
    (reviews : List ReviewS) (authors states : Option (List String)) : List CommentThread :=
  sortByKey lastCommentKey
    (filteredThreads reviewComments (mkAuthorSet authors) (mkStateSet states) ++
      singletonThreads issueComments reviews (mkAuthorSet authors) (mkStateSet states))

/-- Models `gatherComments` of src/comments.ts as a pure function of the three
fetched comment collections, the options and the ambient clock reading
(`collectedAt`). -/
def gatherComments (issueComments : List IssueC) (reviewComments : List ReviewC)
    (reviews : List ReviewS) (prNumber : Option Nat) (sinceIso : String)
    (cap : Nat) (authors states : Option (List String))
    (collectedAt : String) : CommentSnapshot :=
  let allThreads := allThreadsPreCap issueComments reviewComments reviews authors states
  let capped := if 0 < cap then evictOldest cap allThreads else allThreads
  { prNumber := prNumber.getD 0
    sinceIso := sinceIso
    collectedAt := collectedAt
    totalCount := totalComments capped
    threads := capped }

/-- Totality of the lexicographic comparison. -/
theorem leChars_total : ∀ a b : List Char, leChars a b = true ∨ leChars b a = true := by
  intro a
  induction a with
  | nil => intro b; left; rfl
  | cons x xs ih =>
    intro b
    cases b with
    | nil => right; rfl
    | cons y ys =>
      rw [leChars, leChars]
      rcases Nat.lt_trichotomy x.toNat y.toNat with h | h | h
      · left
        simp [h]
      · have h1 : ¬ x.toNat < y.toNat := by omega
        have h2 : ¬ y.toNat < x.toNat := by omega
        simp only [h1, h2, if_false]
        exact ih ys
      · right
        simp [h]

/-- Transitivity of the lexicographic comparison. -/
theorem leChars_trans : ∀ a b c : List Char,
    leChars a b = true → leChars b c = true → leChars a c = true := by
  intro a
  induction a with
  | nil => intro b c _ _; rfl
  | cons x xs ih =>
    intro b c hab hbc
    cases b with
    | nil => exact absurd hab (by simp [leChars])
    | cons y ys =>
      cases c with
      | nil => exact absurd hbc (by simp [leChars])
      | cons z zs =>
        rw [leChars] at hab hbc ⊢
        rcases Nat.lt_trichotomy x.toNat y.toNat with hxy | hxy | hxy
        · rcases Nat.lt_trichotomy y.toNat z.toNat with hyz | hyz | hyz
          · simp [show x.toNat < z.toNat by omega]
          · simp [show x.toNat < z.toNat by omega]
          · rw [if_neg (by omega), if_pos (by omega)] at hbc
            exact absurd hbc Bool.false_ne_true
        · rw [if_neg (by omega), if_neg (by omega)] at hab
          rcases Nat.lt_trichotomy y.toNat z.toNat with hyz | hyz | hyz
          · simp [show x.toNat < z.toNat by omega]
          · rw [if_neg (by omega), if_neg (by omega)] at hbc
            rw [if_neg (by omega), if_neg (by omega)]
            exact ih ys zs hab hbc
          · rw [if_neg (by omega), if_pos (by omega)] at hbc
            exact absurd hbc Bool.false_ne_true
        · rw [if_neg (by omega), if_pos (by omega)] at hab
          exact absurd hab Bool.false_ne_true

/-- Totality at the string level. -/
theorem leStr_total (a b : String) : leStr a b = true ∨ leStr b a = true :=
  leChars_total a.data b.data

/-- Transitivity at the string level. -/
theorem leStr_trans (a b c : String) :
    leStr a b = true → leStr b c = true → leStr a c = true :=
  leChars_trans a.data b.data c.data

/-- Membership after stable insertion. -/
theorem mem_insertByKey {α : Type} (key : α → String) (x a : α) :
    ∀ l : List α, a ∈ insertByKey key x l ↔ a = x ∨ a ∈ l := by
  intro l
  induction l with
  | nil => simp [insertByKey]
  | cons y ys ih =>
    rw [insertByKey]
    split
    · simp only [List.mem_cons, ih]
      tauto
    · simp only [List.mem_cons]

/-- Stable insertion preserves sortedness by the key. -/
theorem pairwise_insertByKey {α : Type} (key : α → String) (x : α) :
    ∀ l : List α, l.Pairwise (fun a b => leStr (key a) (key b) = true) →
      (insertByKey key x l).Pairwise (fun a b => leStr (key a) (key b) = true) := by
  intro l
  induction l with
  | nil => intro _; simp [insertByKey]
  | cons y ys ih =>
    intro h
    rcases List.pairwise_cons.mp h with ⟨hy, hys⟩
    rw [insertByKey]
    split
    · next hle =>
      refine List.pairwise_cons.mpr ⟨?_, ih hys⟩
      intro b hb
      rcases (mem_insertByKey key x b ys).mp hb with rfl | hbys
      · exact hle
      · exact hy b hbys
    · next hgt =>
      have hxy : leStr (key x) (key y) = true := by
        rcases leStr_total (key y) (key x) with h1 | h1
        · exact absurd h1 hgt
        · exact h1
      refine List.pairwise_cons.mpr ⟨?_, h⟩
      intro b hb
      rcases List.mem_cons.mp hb with rfl | hbys
      · exact hxy
      · exact leStr_trans _ _ _ hxy (hy b hbys)

/-- The stable sort is sorted by the key. -/
theorem pairwise_sortByKey {α : Type} (key : α → String) (l : List α) :
    (sortByKey key l).Pairwise (fun a b => leStr (key a) (key b) = true) := by
  have aux : ∀ (m : List α) (acc : List α),
      acc.Pairwise (fun a b => leStr (key a) (key b) = true) →
      (m.foldl (fun acc x => insertByKey key x acc) acc).Pairwise
        (fun a b => leStr (key a) (key b) = true) := by
    intro m
    induction m with
    | nil => intro acc h; exact h
    | cons x xs ih =>
      intro acc h
      exact ih (insertByKey key x acc) (pairwise_insertByKey key x acc h)
  exact aux l [] List.Pairwise.nil

/-- Membership through the stable sort. -/
theorem mem_sortByKey {α : Type} (key : α → String) (a : α) (l : List α) :
    a ∈ sortByKey key l ↔ a ∈ l := by
  have aux : ∀ (m : List α) (acc : List α),
      (a ∈ m.foldl (fun acc x => insertByKey key x acc) acc) ↔ a ∈ acc ∨ a ∈ m := by
    intro m
    induction m with
    | nil => intro acc; simp
    | cons x xs ih =>
      intro acc
      rw [List.foldl_cons, ih (insertByKey key x acc), mem_insertByKey]
      simp only [List.mem_cons]
      tauto
  have := aux l []
  simp only [List.not_mem_nil, false_or] at this
  exact this

/-- Eviction brings the total within the cap. -/
theorem evictOldest_le (cap : Nat) : ∀ ts : List CommentThread,
    totalComments (evictOldest cap ts) ≤ cap := by
  intro ts
  induction ts with
  | nil => simp [evictOldest, totalComments]
  | cons t rest ih =>
    rw [evictOldest]
    split
    · exact ih
    · next h => exact Nat.not_lt.mp h

/-- Eviction keeps a suffix of the thread list: surviving threads are intact
and in order. -/
theorem evictOldest_suffix (cap : Nat) : ∀ ts : List CommentThread,
    (evictOldest cap ts) <:+ ts := by
  intro ts
  induction ts with
  | nil => exact List.suffix_refl _
  | cons t rest ih =>
    rw [evictOldest]
    split
    · exact ih.trans (List.suffix_cons t rest)
    · exact List.suffix_refl _

/-- Concrete review line comment for the C4 counterexample (one comment, so
any gather over it has total count one). -/
def rc1 : ReviewC :=
  { id := 9, body := "needs fix", created_at := "2024-02-02T00:00:00Z", updated_at := none,
    html_url := "u9", user := "bob", path := "g.ts", line := none, start_line := none,
    original_line := none, side := none, commit_id := some "def0",
    in_reply_to_id := none, thread_id := some 3 }

/-- C4 counterexample: with a configured cap of zero, the source skips the
eviction step entirely (the guard requires a positive cap), so a gather over a
single fetched comment returns a snapshot whose total count is one, exceeding
the cap.  This refutes the claim for every configured cap. -/
theorem gatherComments_cap_zero_counterexample :
    (gatherComments [] [rc1] [] (some 1) "s" 0 none none "now").totalCount = 1 ∧
    ¬ ((gatherComments [] [rc1] [] (some 1) "s" 0 none none "now").totalCount ≤ 0) := by
  constructor
  · decide
  · decide

/-- C4 amended: with a positive configured cap, the snapshot total never
exceeds the cap, and the surviving threads are a suffix of the pre-cap ordered
thread list — eviction removes whole oldest threads only, leaving every
surviving thread intact with all the comments gathered for it.  With a cap of
zero the eviction step is skipped and the total is unbounded. -/
theorem gatherComments_cap_invariant_pos (issueComments : List IssueC)
    (reviewComments : List ReviewC) (reviews : List ReviewS) (prNumber : Option Nat)
    (sinceIso : String) (cap : Nat) (authors states : Option (List String))
    (collectedAt : String) (hcap : 0 < cap) :
    (gatherComments issueComments reviewComments reviews prNumber sinceIso cap
      authors states collectedAt).totalCount ≤ cap ∧
    (gatherComments issueComments reviewComments reviews prNumber sinceIso cap
      authors states collectedAt).threads <:+
      allThreadsPreCap issueComments reviewComments reviews authors states := by
  constructor
  · simp only [gatherComments, if_pos hcap]
    exact evictOldest_le cap _
  · simp only [gatherComments, if_pos hcap]
    exact evictOldest_suffix cap _

/-- Witness for the amended C4 theorem at a concrete empty gather with cap
one. -/
theorem gatherComments_cap_invariant_pos_witness :
    (gatherComments [] [] [] none "" 1 none none "").totalCount ≤ 1 ∧
    (gatherComments [] [] [] none "" 1 none none "").threads <:+
      allThreadsPreCap [] [] [] none none :=
  gatherComments_cap_invariant_pos [] [] [] none "" 1 none none "" (by decide)

/-- C8: in every returned snapshot, the comments of each thread are pairwise
ascending by creation timestamp (in particular adjacent ones), and the threads
are pairwise ascending by the timestamp of their most recent comment. -/
theorem gatherComments_ordering (issueComments : List IssueC)
    (reviewComments : List ReviewC) (reviews : List ReviewS) (prNumber : Option Nat)
    (sinceIso : String) (cap : Nat) (authors states : Option (List String))
    (collectedAt : String) :
    (∀ t ∈ (gatherComments issueComments reviewComments reviews prNumber sinceIso cap
        authors states collectedAt).threads,
      t.comments.Pairwise (fun a b => leStr a.createdAt b.createdAt = true)) ∧
    ((gatherComments issueComments reviewComments reviews prNumber sinceIso cap
        authors states collectedAt).threads.Pairwise
      (fun a b => leStr (lastCommentKey a) (lastCommentKey b) = true)) := by
  have hsuffix : (gatherComments issueComments reviewComments reviews prNumber sinceIso
      cap authors states collectedAt).threads <:+
      allThreadsPreCap issueComments reviewComments reviews authors states := by
    simp only [gatherComments]
    split
    · exact evictOldest_suffix cap _
    · exact List.suffix_refl _
  constructor
  · intro t ht
    have htall : t ∈ allThreadsPreCap issueComments reviewComments reviews authors states :=
      hsuffix.sublist.subset ht
    rw [allThreadsPreCap, mem_sortByKey] at htall
    rcases List.mem_append.mp htall with hA | hB
    · rw [filteredThreads] at hA
      rcases List.mem_filter.mp hA with ⟨hmap, -⟩
      rcases List.mem_map.mp hmap with ⟨t0, -, rfl⟩
      exact List.Pairwise.sublist (List.filter_sublist _)
        (pairwise_sortByKey (fun c => c.createdAt) t0.comments)
    · rw [singletonThreads] at hB
      rcases List.mem_map.mp hB with ⟨i, -, rfl⟩
      simp
  · exact List.Pairwise.sublist hsuffix.sublist
      (pairwise_sortByKey lastCommentKey _)

/-- Concrete review line comment for the C8 witness. -/
def rc0 : ReviewC :=
  { id := 5, body := "b", created_at := "2024-01-01T00:00:00Z", updated_at := none,
    html_url := "u", user := "alice", path := "f.ts", line := none, start_line := none,
    original_line := none, side := none, commit_id := some "abc",
    in_reply_to_id := none, thread_id := some 7 }

/-- Witness for C8: thread ordering of a concrete one-comment gather. -/
theorem gatherComments_ordering_witness :
    (gatherComments [] [rc0] [] (some 1) "s" 100 none none "now").threads.Pairwise
      (fun a b => leStr (lastCommentKey a) (lastCommentKey b) = true) :=
  (gatherComments_ordering [] [rc0] [] (some 1) "s" 100 none none "now").2

/-! ## Branch resolution core (src/resolve.ts) -/

/-- Models `up.split(sep)` for a single-character separator. -/
def splitOnChar (sep : Char) : List Char → List (List Char)
  | [] => [[]]
  | c :: rest =>
    if c = sep then [] :: splitOnChar sep rest
    else (splitOnChar sep rest).modifyHead (c :: ·)

/-- Models the upstream parse of src/resolve.ts:
`up.includes("/") ? up.split("/").slice(1).join("/") : up || null`. -/
def upstreamRemoteBranch (up : String) : Option String :=
  if up.data.contains '/' then
    some ⟨joinSep ['/'] ((splitOnChar '/' up.data).drop 1)⟩
  else jsOrNullStr up

/-- Effect record of the resolver: results of the local git probes and of the
GitHub lookups consumed by `resolveTarget`.  A `none` models a rejected or
null-returning call. -/
structure ResolveEnv where
  locBranchRaw : String
  upstreamOut : Option String
  remoteHeadShaOf : String → Option String
  ghBranchShaOf : String → Option String
  localHeadSha : String
  branchesForCommit : String → Option (List String)

/-- Models the branch-and-sha resolution core of `resolveTarget` in
src/resolve.ts (lines 69 to 131).  The `explicitBranch` parameter mirrors
`ResolveOptions.explicitBranch`: it is received but never consulted by the
function body, exactly as in the source. -/
def resolveBranchSha (explicitBranch : Option String) (env : ResolveEnv) :
    Except String (String × String) :=
  let localBranch : Option String :=
    if env.locBranchRaw = "" ∨ env.locBranchRaw = "detached" then none
    else some env.locBranchRaw
  let remoteBranch0 : Option String :=
    match env.upstreamOut with
    | some up => upstreamRemoteBranch up
    | none => none
  let remoteBranch1 : Option String :=
    match remoteBranch0 with
    | some b => some b
    | none => localBranch
  let headSha0 : Option String :=
    match remoteBranch1 with
    | some b =>
      match jsOrNullOpt (env.remoteHeadShaOf b) with
      | some s => some s
      | none => env.ghBranchShaOf b
    | none => none
  let step2 : Option String × Option String :=
    match jsOrNullOpt headSha0 with
    | some s => (remoteBranch1, some s)
    | none =>
      match env.branchesForCommit env.localHeadSha with
      | some (b :: _) =>
        let rb : Option String :=
          match jsOrNullStr b with
          | some b2 => some b2
          | none => remoteBranch1
        (rb, match rb with
             | some rbv => env.ghBranchShaOf rbv
             | none => none)
      | _ => (remoteBranch1, none)
  match jsOrNullOpt step2.2, jsOrNullOpt step2.1 with
  | some s, some b => .ok (b, s)
  | _, _ =>
    .error "Cannot infer remote branch/sha. Push your branch or pass --branch <remote-branch>."

/-- Concrete failing environment for C3: the worktree sits on `main` with
upstream `origin/main`, while the caller passes an explicit branch
`feature-x` that is perfectly resolvable remotely. -/
def env0 : ResolveEnv :=
  { locBranchRaw := "main"
    upstreamOut := some "origin/main"
    remoteHeadShaOf := fun b =>
      if b = "main" then some "mainsha"
      else if b = "feature-x" then some "featsha" else none
    ghBranchShaOf := fun _ => none
    localHeadSha := "localsha"
    branchesForCommit := fun _ => none }

/-- C3: the resolver ignores the explicit branch argument entirely — its
result is the same for any two explicit-branch values — and on the concrete
environment `env0` it resolves to the locally detected branch `main` rather
than the requested `feature-x`, contradicting both the spec and the doc
comment of `resolveTarget` (branch: explicit over local). -/
theorem resolveTarget_ignores_explicit_branch :
    (∀ (e₁ e₂ : Option String) (env : ResolveEnv),
      resolveBranchSha e₁ env = resolveBranchSha e₂ env) ∧
    resolveBranchSha (some "feature-x") env0 = .ok ("main", "mainsha") := by
  constructor
  · intro e₁ e₂ env
    rfl
  · rfl
